import Mathlib

/- Verification model of `camera_utils.py`: camera intrinsics/extrinsics,
   projection matrices, depth-image back-projection, two-view geometry
   helpers, visibility and bounding-box extraction.

   Numeric arrays are modelled over `ℝ`; numpy/python exceptions are
   modelled with `Option`/`Except`. External library calls
   (cv2.projectPoints) are abstracted as function parameters; the
   rigid-transform type from `bot_geometry` is modelled from the spec by its
   observable rotation matrix and translation vector. -/

namespace CamUtils

open Matrix

abbrev Pt2 := ℝ × ℝ
abbrev Pt3 := ℝ × ℝ × ℝ

/-- Python `int()` applied to a real: truncation toward zero. -/
noncomputable def pyInt (r : ℝ) : ℤ := if 0 ≤ r then ⌊r⌋ else ⌈r⌉

/-- Helper for python slicing `l[::s]`: `sliceAux s k l` skips the next `k`
elements, then keeps one and repeats with gap `s - 1`. -/
def sliceAux {α : Type} (s : ℕ) : ℕ → List α → List α
  | _, [] => []
  | 0, a :: l => a :: sliceAux s (s - 1) l
  | k + 1, _ :: l => sliceAux s k l

/-- Python slicing `l[::s]` for stride `s ≥ 1`: every `s`-th element,
starting with the first. -/
def sliceStep {α : Type} (s : ℕ) (l : List α) : List α := sliceAux s 0 l

/-- `np.min` over a 1-D array: `none` models the `ValueError` raised on an
empty array. -/
noncomputable def npMin (l : List ℝ) : Option ℝ :=
  match l with
  | [] => none
  | a :: r => some (r.foldl min a)

/-- `np.max` over a 1-D array: `none` models the `ValueError` raised on an
empty array. -/
noncomputable def npMax (l : List ℝ) : Option ℝ :=
  match l with
  | [] => none
  | a :: r => some (r.foldl max a)

/-- Insert a value into an ascending-sorted list. -/
noncomputable def insertSorted (x : ℝ) : List ℝ → List ℝ
  | [] => [x]
  | a :: l => if x ≤ a then x :: a :: l else a :: insertSorted x l

/-- Ascending insertion sort, used to model the sort inside `np.median`. -/
noncomputable def sortList (l : List ℝ) : List ℝ := l.foldr insertSorted []

/-- `np.median` over a 1-D array: middle element of the sorted data (mean of
the two middle elements for even length). On an empty array numpy yields
`nan`, whose comparisons are all false; this is modelled as `none`. -/
noncomputable def npMedian (l : List ℝ) : Option ℝ :=
  match l with
  | [] => none
  | _ =>
    some (let s := sortList l
          let n := l.length
          if n % 2 = 1 then s.getD (n / 2) 0
          else (s.getD (n / 2 - 1) 0 + s.getD (n / 2) 0) / 2)

/-- The in-image-bounds test applied to each projected point in
`get_object_bbox` (`0 <= x < W` and `0 <= y < H`). -/
def inBounds (W H : ℝ) (q : Pt2) : Prop :=
  0 ≤ q.1 ∧ q.1 < W ∧ 0 ≤ q.2 ∧ q.2 < H

open Classical in
/-- The filter `pts2d[valid]` from `get_object_bbox`, keeping the points
inside image bounds. -/
noncomputable def filterValid (W H : ℝ) : List Pt2 → List Pt2
  | [] => []
  | q :: l =>
    if inBounds W H q then q :: filterValid W H l else filterValid W H l

/-- `construct_K(fx, fy, cx, cy)`: identity matrix with focal lengths and
principal point written in. -/
def construct_K (fx fy cx cy : ℝ) : Matrix (Fin 3) (Fin 3) ℝ :=
  !![fx, 0, cx; 0, fy, cy; 0, 0, 1]

/-- State of a `CameraIntrinsic` object: calibration matrix, distortion,
cached principal point / focal lengths, optional image shape. The python
attributes `cx`, `cy` may in principle hold `None` (the guard in
`Camera.center` tests exactly that), hence `Option ℝ`. -/
structure CameraIntrinsic where
  K : Matrix (Fin 3) (Fin 3) ℝ
  D : Fin 4 → ℝ
  cx : Option ℝ
  cy : Option ℝ
  fx : ℝ
  fy : ℝ
  shape : Option (ℕ × ℕ × ℕ)

/-- `CameraIntrinsic.__init__`: caches `cx = K[0,2]`, `cy = K[1,2]`,
`fx = K[0,0]`, `fy = K[1,1]`. -/
def CameraIntrinsic.init (K : Matrix (Fin 3) (Fin 3) ℝ) (D : Fin 4 → ℝ)
    (shape : Option (ℕ × ℕ × ℕ)) : CameraIntrinsic :=
  { K := K, D := D, cx := some (K 0 2), cy := some (K 1 2),
    fx := K 0 0, fy := K 1 1, shape := shape }

/-- `CameraIntrinsic.from_calib_params`. -/
def CameraIntrinsic.from_calib_params (fx fy cx cy : ℝ) : CameraIntrinsic :=
  CameraIntrinsic.init (construct_K fx fy cx cy) 0 none

/-- `CameraIntrinsic.simluate` (sic): 640×480 camera with focal length 500. -/
def CameraIntrinsic.simluate : CameraIntrinsic :=
  CameraIntrinsic.from_calib_params 500 500 320 240

/-- `CameraIntrinsic.fov`: `2·atan(cx/fx)` and `2·atan(cy/fy)`; `none`
models the failure when the principal point attributes hold `None`. -/
noncomputable def CameraIntrinsic.fov (c : CameraIntrinsic) : Option (ℝ × ℝ) :=
  match c.cx, c.cy with
  | some x, some y =>
    some (Real.arctan (x / c.fx) * 2, Real.arctan (y / c.fy) * 2)
  | _, _ => none

/-- Modelled from the spec: `bot_geometry.rigid_transform.RigidTransform`
(not under src/), reduced to its observable state — the derived rotation
matrix accessor `R` and the translation vector `tvec`; the internal unit
quaternion representation is a detail of that external library. -/
structure Pose where
  R : Matrix (Fin 3) (Fin 3) ℝ
  tvec : Fin 3 → ℝ

/-- The identity pose (`CameraExtrinsic.identity`). -/
def Pose.identity : Pose := { R := 1, tvec := 0 }

/-- State of a `Camera` object: the intrinsic fields together with the
extrinsic pose (rotation and translation). -/
structure Camera where
  intr : CameraIntrinsic
  R : Matrix (Fin 3) (Fin 3) ℝ
  tvec : Fin 3 → ℝ

/-- `Camera.__init__(K, R, t, D, shape)`. -/
def Camera.init (K : Matrix (Fin 3) (Fin 3) ℝ) (R : Matrix (Fin 3) (Fin 3) ℝ)
    (t : Fin 3 → ℝ) (D : Fin 4 → ℝ) (shape : Option (ℕ × ℕ × ℕ)) : Camera :=
  { intr := CameraIntrinsic.init K D shape, R := R, tvec := t }

/-- `Camera.from_intrinsics_extrinsics`. -/
def Camera.from_intrinsics_extrinsics (i : CameraIntrinsic) (e : Pose) : Camera :=
  Camera.init i.K e.R e.tvec i.D i.shape

/-- `Camera.simulate`: simulated intrinsics at the identity pose. -/
def Camera.simulate : Camera :=
  Camera.from_intrinsics_extrinsics CameraIntrinsic.simluate Pose.identity

/-- `KinectCamera`: camera with the Kinect v1 depth calibration matrix. -/
def KinectCamera (R : Matrix (Fin 3) (Fin 3) ℝ) (t : Fin 3 → ℝ) : Camera :=
  Camera.init !![576.09757860, 0, 319.5; 0, 576.09757860, 239.5; 0, 0, 1] R t 0 none

/-- `self.to_homogeneous_matrix()[:3]`: the 3×4 matrix `[R | t]`. -/
def Camera.Rt (c : Camera) : Matrix (Fin 3) (Fin 4) ℝ :=
  Matrix.of fun i j => if h : (j : ℕ) < 3 then c.R i ⟨j, h⟩ else c.tvec i

/-- `Camera.P`: projection matrix `K · [R | t]`. -/
def Camera.P (c : Camera) : Matrix (Fin 3) (Fin 4) ℝ := c.intr.K * c.Rt

/-- `Camera.center`: raises unless the `cx` attribute is set, then returns
`matrix([cx, cy])` (only `cx` is guarded in the source). -/
def Camera.center (c : Camera) : Except String (ℝ × Option ℝ) :=
  match c.intr.cx with
  | none => .error "cx, cy is not set"
  | some x => .ok (x, c.intr.cy)

/-- `Camera.set_pose(pose)`: overwrite the stored rotation and translation
with those of `pose`. -/
def Camera.set_pose (c : Camera) (pose : Pose) : Camera :=
  { c with R := pose.R, tvec := pose.tvec }

/-- `compute_essential(F, K) = K.T * F * K`. -/
def compute_essential (F K : Matrix (Fin 3) (Fin 3) ℝ) : Matrix (Fin 3) (Fin 3) ℝ :=
  K.transpose * F * K

/-- State of a `DepthCamera`: intrinsic parameters plus the precomputed
subsampled ray-mesh, stored through its 1-D factors `xs` (length W') and
`ys` (length H'); the meshgrid arrays are `xs2d[i][j] = xs[j]`,
`ys2d[i][j] = ys[i]`, of shape `(ys.length, xs.length)`. -/
structure DepthCamera where
  fx : ℝ
  fy : ℝ
  cx : ℝ
  cy : ℝ
  shape : ℕ × ℕ
  skip : ℕ
  xs : List ℝ
  ys : List ℝ

/-- `DepthCamera.__init__` followed by `_build_mesh`: ray factors
`xs = ((arange W) - cx) * (1/fx)` and `ys = ((arange H) - cy) * (1/fx)`
(the source multiplies the row offsets by `fx_inv` as well), each subsampled
by `[::skip]`. -/
noncomputable def DepthCamera.init (K : Matrix (Fin 3) (Fin 3) ℝ) (shape : ℕ × ℕ)
    (skip : ℕ) : DepthCamera :=
  { fx := K 0 0, fy := K 1 1, cx := K 0 2, cy := K 1 2,
    shape := shape, skip := skip,
    xs := sliceStep skip ((List.range shape.2).map fun n => ((n : ℝ) - K 0 2) * (1 / K 0 0)),
    ys := sliceStep skip ((List.range shape.1).map fun n => ((n : ℝ) - K 1 2) * (1 / K 0 0)) }

/-- `DepthCamera.reconstruct(depth)`: requires `depth.shape == self.xs.shape`
(`none` models the `AssertionError`), then stacks
`(xs * depth, ys * depth, depth)` per pixel. -/
noncomputable def DepthCamera.reconstruct (c : DepthCamera) (depth : List (List ℝ)) :
    Option (List (List Pt3)) :=
  if depth.length = c.ys.length ∧ ∀ r ∈ depth, r.length = c.xs.length then
    some (List.zipWith
      (fun y row => List.zipWith (fun x d => (x * d, y * d, d)) c.xs row)
      c.ys depth)
  else none

/-- Euclidean dot product on 3-vectors. -/
def dot3 (u v : Pt3) : ℝ := u.1 * v.1 + u.2.1 * v.2.1 + u.2.2 * v.2.2

/-- Euclidean norm on 3-vectors (`np.linalg.norm`). -/
noncomputable def norm3 (v : Pt3) : ℝ := Real.sqrt (dot3 v v)

/-- Componentwise difference of 3-vectors. -/
def sub3 (u v : Pt3) : Pt3 := (u.1 - v.1, u.2.1 - v.2.1, u.2.2 - v.2.2)

/-- `camera.R[:,2]`: the camera's viewing direction, third column of `R`. -/
def Camera.lookat (c : Camera) : Pt3 := (c.R 0 2, c.R 1 2, c.R 2 2)

/-- The camera translation as a 3-point. -/
def Camera.tvecPt (c : Camera) : Pt3 := (c.tvec 0, c.tvec 1, c.tvec 2)

open Classical in
/-- `check_visibility(camera, pts)`: each point is marked visible when
`arccos(lookat · v / ‖v‖) < np.max(camera.fov)` for `v` the vector from the
camera center to the point. `none` models failure of the `fov` access. -/
noncomputable def check_visibility (camera : Camera) (pts : List Pt3) :
    Option (List Bool) :=
  match camera.intr.fov with
  | none => none
  | some fv =>
    some (pts.map fun p =>
      let v := sub3 p camera.tvecPt
      decide (Real.arccos (dot3 camera.lookat v / norm3 v) < max fv.1 fv.2))

/-- Modelled from the spec: application of the camera's rigid transform to a
point (`camera * pts`, from `bot_geometry.rigid_transform`, not under src/),
mapping a world point into the camera frame, `p ↦ R·p + t`. -/
def xformPt (R : Matrix (Fin 3) (Fin 3) ℝ) (t : Fin 3 → ℝ) (p : Pt3) : Pt3 :=
  (R 0 0 * p.1 + R 0 1 * p.2.1 + R 0 2 * p.2.2 + t 0,
   R 1 0 * p.1 + R 1 1 * p.2.1 + R 1 2 * p.2.2 + t 1,
   R 2 0 * p.1 + R 2 1 * p.2.1 + R 2 2 * p.2.2 + t 2)

/-- The bounding-box dictionary returned by `get_object_bbox`. -/
structure BBox where
  left : ℤ
  right : ℤ
  top : ℤ
  bottom : ℤ

open Classical in
/-- The `scale != 1.0` branch at the end of `get_object_bbox`: symmetric
expansion/contraction of the box about its center, re-clipped to the image. -/
noncomputable def rescaleBox (scale : ℝ) (W H : ℕ) (x0 x1 y0 y1 : ℤ) : BBox :=
  if scale ≠ 1 then
    let w2 := (scale - 1) * ((x1 : ℝ) - (x0 : ℝ)) / 2
    let h2 := (scale - 1) * ((y1 : ℝ) - (y0 : ℝ)) / 2
    { left := pyInt (max 0 ((x0 : ℝ) - w2)),
      right := pyInt (min ((x1 : ℝ) + w2) ((W : ℝ) - 1)),
      top := pyInt (max 0 ((y0 : ℝ) - h2)),
      bottom := pyInt (min ((y1 : ℝ) + h2) ((H : ℝ) - 1)) }
  else { left := x0, right := x1, top := y0, bottom := y1 }

open Classical in
/-- `get_object_bbox(camera, pts, subsample, scale, min_height, min_width)`.
The external `camera.project` call (cv2.projectPoints) is abstracted by the
function parameter `proj`; `R`, `t` give the camera pose used by the
`camera * pts` transform; `(H, W)` is the camera's image shape. `.error ()`
models a raised exception (`np.min`/projection of an empty array), `.ok none`
the `(None, None, None)` sentinel. -/
noncomputable def get_object_bbox (proj : Pt3 → Pt2) (R : Matrix (Fin 3) (Fin 3) ℝ)
    (t : Fin 3 → ℝ) (H W : ℕ) (pts : List Pt3) (subsample : ℕ)
    (scale min_height min_width : ℝ) :
    Except Unit (Option (List (ℤ × ℤ) × BBox × ℝ)) :=
  let sub := sliceStep subsample pts
  let pts2d := sub.map proj
  match npMin (pts2d.map Prod.fst), npMax (pts2d.map Prod.fst),
        npMin (pts2d.map Prod.snd), npMax (pts2d.map Prod.snd) with
  | some mnx, some mxx, some mny, some mxy =>
    let x0 := pyInt (max 0 mnx)
    let x1 := pyInt (min ((W : ℝ) - 1) mxx)
    let y0 := pyInt (max 0 mny)
    let y1 := pyInt (min ((H : ℝ) - 1) mxy)
    let valid := filterValid W H pts2d
    let medOk : Prop :=
      match npMedian (valid.map Prod.fst), npMedian (valid.map Prod.snd) with
      | some xmed, some ymed => 0 ≤ xmed ∧ 0 ≤ ymed ∧ xmed ≤ (W : ℝ) ∧ ymed < (H : ℝ)
      | _, _ => False
    if medOk ∧ min_height ≤ ((y1 - y0 : ℤ) : ℝ) ∧ min_width ≤ ((x1 - x0 : ℤ) : ℝ) then
      match npMedian ((sub.map (xformPt R t)).map fun p => p.2.2) with
      | none => .error ()
      | some depth =>
        if depth < 0 then .ok none
        else .ok (some (valid.map fun q => (pyInt q.1, pyInt q.2),
                        rescaleBox scale W H x0 x1 y0 y1, depth))
    else .ok none
  | _, _, _, _ => .error ()

/-- Data of the C1 failing input: `fx = 1`, `fy = 2`, `cx = 0`, `cy = 1`. -/
def K_ex : Matrix (Fin 3) (Fin 3) ℝ := !![1, 0, 0; 0, 2, 1; 0, 0, 1]

/-- Depth camera on `K_ex` with shape `(2, 1)` and stride 1. -/
noncomputable def dc_ex : DepthCamera := DepthCamera.init K_ex (2, 1) 1

/-- Concrete camera for the visibility analysis: `fx = fy = 1`,
`cx = cy = 1`, identity pose. Its two field-of-view values are both `π/2`. -/
noncomputable def cam_ex : Camera := Camera.init (construct_K 1 1 1 1) 1 0 0 none

/-- Concrete test point for the visibility analysis, at 45° from the
optical axis of `cam_ex`. -/
noncomputable def p_ex : Pt3 := (1, 0, 1)

/- ------------------------------------------------------------------ -/
/- Theorems.                                                           -/
/- ------------------------------------------------------------------ -/

theorem sliceStep_cons {α : Type} (s : ℕ) (a : α) (l : List α) :
    sliceStep s (a :: l) = a :: sliceAux s (s - 1) l := rfl

theorem foldl_min_le_init (l : List ℝ) : ∀ a : ℝ, l.foldl min a ≤ a := by
  induction l with
  | nil => intro a; simp
  | cons b r ih =>
    intro a
    calc (b :: r).foldl min a = r.foldl min (min a b) := rfl
    _ ≤ min a b := ih _
    _ ≤ a := min_le_left _ _

theorem foldl_min_le_mem {l : List ℝ} {x : ℝ} (hx : x ∈ l) :
    ∀ a : ℝ, l.foldl min a ≤ x := by
  induction l with
  | nil => cases hx
  | cons b r ih =>
    intro a
    rcases List.mem_cons.mp hx with h | h
    · subst h
      calc (x :: r).foldl min a = r.foldl min (min a x) := rfl
      _ ≤ min a x := foldl_min_le_init _ _
      _ ≤ x := min_le_right _ _
    · exact ih h _

theorem init_le_foldl_max (l : List ℝ) : ∀ a : ℝ, a ≤ l.foldl max a := by
  induction l with
  | nil => intro a; simp
  | cons b r ih =>
    intro a
    calc a ≤ max a b := le_max_left _ _
    _ ≤ r.foldl max (max a b) := ih _
    _ = (b :: r).foldl max a := rfl

theorem mem_le_foldl_max {l : List ℝ} {x : ℝ} (hx : x ∈ l) :
    ∀ a : ℝ, x ≤ l.foldl max a := by
  induction l with
  | nil => cases hx
  | cons b r ih =>
    intro a
    rcases List.mem_cons.mp hx with h | h
    · subst h
      calc x ≤ max a x := le_max_right _ _
      _ ≤ r.foldl max (max a x) := init_le_foldl_max _ _
      _ = (x :: r).foldl max a := rfl
    · exact ih h _

theorem npMin_le {l : List ℝ} {m x : ℝ} (hm : npMin l = some m) (hx : x ∈ l) :
    m ≤ x := by
  cases l with
  | nil => cases hx
  | cons a r =>
    simp only [npMin, Option.some.injEq] at hm
    subst hm
    rcases List.mem_cons.mp hx with h | h
    · subst h; exact foldl_min_le_init r x
    · exact foldl_min_le_mem h a

theorem le_npMax {l : List ℝ} {m x : ℝ} (hm : npMax l = some m) (hx : x ∈ l) :
    x ≤ m := by
  cases l with
  | nil => cases hx
  | cons a r =>
    simp only [npMax, Option.some.injEq] at hm
    subst hm
    rcases List.mem_cons.mp hx with h | h
    · subst h; exact init_le_foldl_max r x
    · exact mem_le_foldl_max h a

theorem npMedian_nil : npMedian [] = none := rfl

theorem npMedian_ne_nil {l : List ℝ} {m : ℝ} (h : npMedian l = some m) :
    l ≠ [] := by
  intro hl
  subst hl
  simp [npMedian] at h

theorem npMedian_singleton (x : ℝ) : npMedian [x] = some x := by
  simp [npMedian, sortList, insertSorted]

theorem filterValid_eq_nil {W H : ℝ} {l : List Pt2}
    (h : ∀ q ∈ l, ¬ inBounds W H q) : filterValid W H l = [] := by
  induction l with
  | nil => rfl
  | cons a r ih =>
    rw [filterValid, if_neg (h a (List.mem_cons_self a r))]
    exact ih fun q hq => h q (List.mem_cons_of_mem a hq)

theorem filterValid_mem {W H : ℝ} {l : List Pt2} {q : Pt2}
    (h : q ∈ filterValid W H l) : inBounds W H q ∧ q ∈ l := by
  induction l with
  | nil => cases h
  | cons a r ih =>
    rw [filterValid] at h
    by_cases ha : inBounds W H a
    · rw [if_pos ha] at h
      rcases List.mem_cons.mp h with h' | h'
      · subst h'; exact ⟨ha, List.mem_cons_self _ _⟩
      · exact ⟨(ih h').1, List.mem_cons_of_mem a (ih h').2⟩
    · rw [if_neg ha] at h
      exact ⟨(ih h).1, List.mem_cons_of_mem a (ih h).2⟩

theorem pyInt_of_nonneg {r : ℝ} (h : 0 ≤ r) : pyInt r = ⌊r⌋ := if_pos h

theorem pyInt_nonneg {r : ℝ} (h : 0 ≤ r) : 0 ≤ pyInt r := by
  rw [pyInt_of_nonneg h]
  exact Int.floor_nonneg.mpr h

theorem pyInt_le_int {r : ℝ} {n : ℤ} (h : r ≤ (n : ℝ)) : pyInt r ≤ n := by
  unfold pyInt
  split
  · exact le_trans (Int.floor_mono h) (le_of_eq (Int.floor_intCast n))
  · exact Int.ceil_le.mpr h

theorem int_le_pyInt {r : ℝ} {n : ℤ} (h : (n : ℝ) ≤ r) : n ≤ pyInt r := by
  unfold pyInt
  split
  · exact Int.le_floor.mpr h
  · exact le_trans (le_of_eq (Int.ceil_intCast n).symm) (Int.ceil_mono h)

theorem pyInt_mono {r s : ℝ} (h : r ≤ s) : pyInt r ≤ pyInt s := by
  unfold pyInt
  split <;> split
  · exact Int.floor_mono h
  · rename_i h1 h2; exact absurd (le_trans h1 h) h2
  · rename_i h1 h2
    refine le_trans (Int.ceil_le.mpr ?_) (Int.floor_nonneg.mpr h2)
    exact_mod_cast le_of_not_le h1
  · exact Int.ceil_mono h

/-- Claim C5: `reconstruct` fails (with no partial result) exactly when the depth
array's shape differs from the mesh shape `(ys.length, xs.length)`. -/
theorem reconstruct_none_iff_shape_mismatch :
    ∀ (c : DepthCamera) (depth : List (List ℝ)),
      c.reconstruct depth = none ↔
        ¬ (depth.length = c.ys.length ∧ ∀ r ∈ depth, r.length = c.xs.length) := by
  intro c depth
  unfold DepthCamera.reconstruct
  split
  · rename_i h; simpa using h
  · rename_i h; simpa using h

/-- Claim C7: `set_pose` replaces the stored rotation and translation with those
of the given pose and leaves every intrinsic field (`K`, `D`, `shape`,
`fx`, `fy`, `cx`, `cy`) unchanged. -/
theorem set_pose_replaces_pose_keeps_intrinsics :
    ∀ (c : Camera) (p : Pose),
      (c.set_pose p).R = p.R ∧ (c.set_pose p).tvec = p.tvec ∧
      (c.set_pose p).intr.K = c.intr.K ∧ (c.set_pose p).intr.D = c.intr.D ∧
      (c.set_pose p).intr.shape = c.intr.shape ∧
      (c.set_pose p).intr.fx = c.intr.fx ∧ (c.set_pose p).intr.fy = c.intr.fy ∧
      (c.set_pose p).intr.cx = c.intr.cx ∧ (c.set_pose p).intr.cy = c.intr.cy :=
  fun _ _ => ⟨rfl, rfl, rfl, rfl, rfl, rfl, rfl, rfl, rfl⟩

/-- Claim C8: `compute_essential(F, K)` is exactly the matrix product `Kᵀ·F·K`
(under either association), with no decomposition of the result. -/
theorem compute_essential_eq :
    ∀ F K : Matrix (Fin 3) (Fin 3) ℝ,
      compute_essential F K = K.transpose * F * K ∧
      compute_essential F K = K.transpose * (F * K) :=
  fun _ _ => ⟨rfl, mul_assoc _ _ _⟩

/-- Claim C9: every camera built by the constructor has `cx = K[0,2]` and
`cy = K[1,2]` set, so `center` never reaches its error branch and returns
the principal point. -/
theorem center_of_constructed_ok :
    ∀ (K R : Matrix (Fin 3) (Fin 3) ℝ) (t : Fin 3 → ℝ) (D : Fin 4 → ℝ)
      (shape : Option (ℕ × ℕ × ℕ)),
      (Camera.init K R t D shape).center = Except.ok (K 0 2, some (K 1 2)) :=
  fun _ _ _ _ _ => rfl

/-- Claim C1: at the failing input (`fx = 1`, `fy = 2`, `cx = 0`, `cy = 1`, shape
`(2,1)`, `skip = 1`, constant depth 1) the reconstruction's y-component at
pixel `(0,0)` is `(0 - cy)/fx · 1 = -1`, which matches the row-ray formula
divided by `fx` and differs from the claimed `(0 - cy)/fy · 1 = -1/2`. -/
theorem reconstruct_row_rays_divided_by_fx :
    DepthCamera.reconstruct dc_ex [[1], [1]]
        = some [[((0 : ℝ), (-1 : ℝ), (1 : ℝ))], [(0, 0, 1)]] ∧
    (-1 : ℝ) = (((dc_ex.skip : ℝ) * 0 - dc_ex.cy) / dc_ex.fx) * 1 ∧
    (-1 : ℝ) ≠ (((dc_ex.skip : ℝ) * 0 - dc_ex.cy) / dc_ex.fy) * 1 := by
  have hxs : dc_ex.xs = [0] := by
    norm_num [dc_ex, DepthCamera.init, K_ex, sliceStep, sliceAux, List.range_succ]
  have hys : dc_ex.ys = [-1, 0] := by
    norm_num [dc_ex, DepthCamera.init, K_ex, sliceStep, sliceAux, List.range_succ]
  refine ⟨?_, ?_, ?_⟩
  · unfold DepthCamera.reconstruct
    rw [hxs, hys]
    norm_num [List.zipWith]
  · norm_num [dc_ex, DepthCamera.init, K_ex]
  · norm_num [dc_ex, DepthCamera.init, K_ex]

/-- Claim C3 counterexample: for the simulated camera (whose translation is zero)
the projection matrix applied to the homogeneous world origin gives the
zero vector: its third homogeneous coordinate is 0, and the (Lean-total)
normalized coordinates are `(0, 0)`, not the image center `(320, 240)`. -/
theorem simulate_P_origin_not_center :
    (Camera.simulate.P.mulVec ![0, 0, 0, 1]) 2 = 0 ∧
    ¬ ((Camera.simulate.P.mulVec ![0, 0, 0, 1]) 0 /
         (Camera.simulate.P.mulVec ![0, 0, 0, 1]) 2 = 320 ∧
       (Camera.simulate.P.mulVec ![0, 0, 0, 1]) 1 /
         (Camera.simulate.P.mulVec ![0, 0, 0, 1]) 2 = 240) := by
  have h1 : Camera.simulate.Rt.mulVec ![0, 0, 0, 1] = 0 := by
    funext i
    simp [Camera.Rt, Camera.simulate, Camera.from_intrinsics_extrinsics,
      Camera.init, Pose.identity, Matrix.mulVec, dotProduct, Fin.sum_univ_four,
      Matrix.of_apply]
    intro h
    exact absurd h (by decide)
  have hv : Camera.simulate.P.mulVec ![0, 0, 0, 1] = 0 := by
    rw [Camera.P, ← Matrix.mulVec_mulVec, h1, Matrix.mulVec_zero]
  rw [hv]
  norm_num

/-- Claim C3 amended: the simulated projection matrix sends any point `(0, 0, z)`
on the optical axis with `z ≠ 0` to a homogeneous vector with nonzero third
coordinate whose normalization is the image center `(320, 240)`; at the
world origin itself (the camera center, since `t = 0`) the homogeneous
image is the zero vector and normalization is undefined. -/
theorem simulate_P_axis_point_center (z : ℝ) (hz : z ≠ 0) :
    (Camera.simulate.P.mulVec ![0, 0, z, 1]) 2 ≠ 0 ∧
    (Camera.simulate.P.mulVec ![0, 0, z, 1]) 0 /
      (Camera.simulate.P.mulVec ![0, 0, z, 1]) 2 = 320 ∧
    (Camera.simulate.P.mulVec ![0, 0, z, 1]) 1 /
      (Camera.simulate.P.mulVec ![0, 0, z, 1]) 2 = 240 := by
  have h1 : Camera.simulate.Rt.mulVec ![0, 0, z, 1] = ![0, 0, z] := by
    funext i
    fin_cases i <;>
      simp [Camera.Rt, Camera.simulate, Camera.from_intrinsics_extrinsics,
        Camera.init, Pose.identity, Matrix.mulVec, dotProduct, Fin.sum_univ_four,
        Matrix.of_apply, Matrix.one_apply] <;>
      exact fun h => absurd h (by decide)
  have h2 : Camera.simulate.intr.K.mulVec ![0, 0, z] = ![320 * z, 240 * z, z] := by
    funext i
    fin_cases i <;>
      norm_num [Camera.simulate, Camera.from_intrinsics_extrinsics, Camera.init,
        CameraIntrinsic.init, CameraIntrinsic.simluate,
        CameraIntrinsic.from_calib_params, construct_K, Matrix.mulVec,
        dotProduct, Fin.sum_univ_three]
  have hv : Camera.simulate.P.mulVec ![0, 0, z, 1] = ![320 * z, 240 * z, z] := by
    rw [Camera.P, ← Matrix.mulVec_mulVec, h1, h2]
  rw [hv]
  refine ⟨by simpa using hz, ?_, ?_⟩ <;>
    · show _ * z / z = _
      rw [mul_div_assoc, div_self hz, mul_one]

/-- Witness for the C3 amended theorem at `z = 1`. -/
theorem simulate_P_axis_point_center_witness :
    (Camera.simulate.P.mulVec ![0, 0, 1, 1]) 2 ≠ 0 ∧
    (Camera.simulate.P.mulVec ![0, 0, 1, 1]) 0 /
      (Camera.simulate.P.mulVec ![0, 0, 1, 1]) 2 = 320 ∧
    (Camera.simulate.P.mulVec ![0, 0, 1, 1]) 1 /
      (Camera.simulate.P.mulVec ![0, 0, 1, 1]) 2 = 240 :=
  simulate_P_axis_point_center 1 one_ne_zero

/-- Claim C4 counterexample: with `f = 1` and a non-square image `W = 4`, `H = 2`
(`cx = W/2 = 2`, `cy = H/2 = 1`) the two field-of-view angles are
`2·atan 2` and `2·atan 1`, which are not equal. -/
theorem fov_nonsquare_angles_differ :
    (CameraIntrinsic.from_calib_params 1 1 (4 / 2) (2 / 2)).fov
        = some (Real.arctan 2 * 2, Real.arctan 1 * 2) ∧
    Real.arctan 2 * 2 ≠ Real.arctan 1 * 2 := by
  constructor
  · norm_num [CameraIntrinsic.from_calib_params, CameraIntrinsic.init,
      CameraIntrinsic.fov, construct_K]
  · intro h
    have h2 : Real.arctan 2 = Real.arctan 1 :=
      mul_right_cancel₀ two_ne_zero h
    have := Real.arctan_injective h2
    norm_num at this

/-- Claim C4 amended: the field-of-view accessor on a constructed intrinsics
object returns `(2·atan(cx/fx), 2·atan(cy/fy))`; for `fx = fy = f > 0`,
`cx = W/2`, `cy = H/2`, the two angles are `2·atan((W/2)/f)` and
`2·atan((H/2)/f)`, which coincide when `W = H`. -/
theorem fov_formula :
    (∀ (K : Matrix (Fin 3) (Fin 3) ℝ) (D : Fin 4 → ℝ) (s : Option (ℕ × ℕ × ℕ)),
       0 < K 0 0 → 0 < K 1 1 →
       (CameraIntrinsic.init K D s).fov
         = some (2 * Real.arctan (K 0 2 / K 0 0), 2 * Real.arctan (K 1 2 / K 1 1)))
    ∧ (∀ f W H : ℝ, 0 < f → W = H →
       (CameraIntrinsic.from_calib_params f f (W / 2) (H / 2)).fov
         = some (2 * Real.arctan ((W / 2) / f), 2 * Real.arctan ((W / 2) / f))) := by
  constructor
  · intro K D s _ _
    simp [CameraIntrinsic.init, CameraIntrinsic.fov, mul_comm]
  · intro f W H _ hWH
    subst hWH
    simp [CameraIntrinsic.from_calib_params, CameraIntrinsic.init,
      CameraIntrinsic.fov, construct_K, mul_comm]

/-- Witness for the C4 amended theorem: a concrete intrinsics object with
positive focal lengths, and the square case `f = 1`, `W = H = 2`. -/
theorem fov_formula_witness :
    (0 < construct_K 500 500 320 240 0 0 ∧ 0 < construct_K 500 500 320 240 1 1 ∧
      (CameraIntrinsic.init (construct_K 500 500 320 240) 0 none).fov
        = some (2 * Real.arctan (construct_K 500 500 320 240 0 2 / construct_K 500 500 320 240 0 0),
                2 * Real.arctan (construct_K 500 500 320 240 1 2 / construct_K 500 500 320 240 1 1)))
    ∧ ((0 : ℝ) < 1 ∧
      (CameraIntrinsic.from_calib_params 1 1 (2 / 2) (2 / 2)).fov
        = some (2 * Real.arctan ((2 / 2) / 1), 2 * Real.arctan ((2 / 2) / 1))) := by
  have h1 : (0 : ℝ) < construct_K 500 500 320 240 0 0 := by norm_num [construct_K]
  have h2 : (0 : ℝ) < construct_K 500 500 320 240 1 1 := by norm_num [construct_K]
  exact ⟨⟨h1, h2, fov_formula.1 _ 0 none h1 h2⟩,
         ⟨one_pos, fov_formula.2 1 2 2 one_pos rfl⟩⟩

theorem cam_ex_fov : cam_ex.intr.fov = some (Real.pi / 2, Real.pi / 2) := by
  simp [cam_ex, Camera.init, CameraIntrinsic.init, CameraIntrinsic.fov,
    construct_K]
  ring

theorem cam_ex_lookat_norm : norm3 cam_ex.lookat = 1 := by
  have : dot3 cam_ex.lookat cam_ex.lookat = 1 := by
    simp [cam_ex, Camera.init, Camera.lookat, dot3, Matrix.one_apply]
  rw [norm3, this, Real.sqrt_one]

theorem cam_ex_angle :
    Real.arccos (dot3 cam_ex.lookat (sub3 p_ex cam_ex.tvecPt) /
      norm3 (sub3 p_ex cam_ex.tvecPt)) = Real.pi / 4 := by
  have hd : dot3 cam_ex.lookat (sub3 p_ex cam_ex.tvecPt) = 1 := by
    norm_num [cam_ex, Camera.init, Camera.lookat, Camera.tvecPt, sub3, p_ex,
      dot3, Matrix.one_apply]
    decide
  have hn : norm3 (sub3 p_ex cam_ex.tvecPt) = Real.sqrt 2 := by
    have : dot3 (sub3 p_ex cam_ex.tvecPt) (sub3 p_ex cam_ex.tvecPt) = 2 := by
      norm_num [cam_ex, Camera.init, Camera.tvecPt, sub3, p_ex, dot3]
    rw [norm3, this]
  have hsqrt2 : (0 : ℝ) < Real.sqrt 2 := Real.sqrt_pos.mpr (by norm_num)
  have hval : (1 : ℝ) / Real.sqrt 2 = Real.sqrt 2 / 2 := by
    rw [div_eq_div_iff hsqrt2.ne' (by norm_num : (2:ℝ) ≠ 0), one_mul,
      Real.mul_self_sqrt (by norm_num : (0:ℝ) ≤ 2)]
  rw [hd, hn, hval, ← Real.cos_pi_div_four]
  exact Real.arccos_cos (by positivity) (by linarith [Real.pi_pos])

/-- Claim C2 counterexample: for the camera with `fx = fy = cx = cy = 1` at the
identity pose, the point `(1, 0, 1)` sits at angle `π/4` from the optical
axis; the maximum field-of-view half-angle is `π/4`, so the claim marks it
not visible, yet `check_visibility` (which compares against the full
`np.max(fov) = π/2`) marks it visible. -/
theorem check_visibility_threshold_is_full_fov :
    check_visibility cam_ex [p_ex] = some [true] ∧
    cam_ex.intr.fov = some (Real.pi / 2, Real.pi / 2) ∧
    ¬ (Real.arccos (dot3 cam_ex.lookat (sub3 p_ex cam_ex.tvecPt) /
         norm3 (sub3 p_ex cam_ex.tvecPt)) < max (Real.pi / 2) (Real.pi / 2) / 2) := by
  refine ⟨?_, cam_ex_fov, ?_⟩
  · unfold check_visibility
    rw [cam_ex_fov]
    simp only [List.map, cam_ex_angle]
    have hlt : Real.pi / 4 < Real.pi / 2 := by linarith [Real.pi_pos]
    simp [hlt]
  · rw [cam_ex_angle, max_self]
    intro h
    linarith

/-- Claim C2 amended: for a camera whose viewing direction has unit norm,
`check_visibility` marks a point visible iff the angle between the viewing
direction and the vector from the camera center to the point is strictly
less than the larger of the two per-axis field-of-view angles themselves
(`np.max(camera.fov)`, the full angle `2·atan`, i.e. twice the maximum
half-angle). -/
theorem check_visibility_iff_lt_max_fov :
    ∀ (c : Camera) (p : Pt3) (a b : ℝ),
      c.intr.fov = some (a, b) → norm3 c.lookat = 1 →
      (check_visibility c [p] = some [true] ↔
        Real.arccos (dot3 c.lookat (sub3 p c.tvecPt) /
          (norm3 c.lookat * norm3 (sub3 p c.tvecPt))) < max a b) := by
  intro c p a b hfov hl
  unfold check_visibility
  rw [hfov, hl, one_mul]
  simp [decide_eq_true_eq]

/-- Witness for the C2 amended theorem at the concrete camera `cam_ex` and
point `p_ex`. -/
theorem check_visibility_iff_lt_max_fov_witness :
    cam_ex.intr.fov = some (Real.pi / 2, Real.pi / 2) ∧
    norm3 cam_ex.lookat = 1 ∧
    (check_visibility cam_ex [p_ex] = some [true] ↔
      Real.arccos (dot3 cam_ex.lookat (sub3 p_ex cam_ex.tvecPt) /
        (norm3 cam_ex.lookat * norm3 (sub3 p_ex cam_ex.tvecPt)))
        < max (Real.pi / 2) (Real.pi / 2)) :=
  ⟨cam_ex_fov, cam_ex_lookat_norm,
    check_visibility_iff_lt_max_fov cam_ex p_ex _ _ cam_ex_fov cam_ex_lookat_norm⟩

/-- Claim C6 counterexample: on the empty point cloud, `get_object_bbox` raises
(from `np.min` of an empty array / projection of an empty array) instead of
returning the `(None, None, None)` sentinel. -/
theorem get_object_bbox_empty_raises :
    get_object_bbox (fun _ => (0, 0)) 1 0 10 10 ([] : List Pt3) 1 1 0 0
        = .error () ∧
    (Except.error () : Except Unit (Option (List (ℤ × ℤ) × BBox × ℝ)))
        ≠ .ok none := by
  constructor
  · rfl
  · intro h
    cases h

/-- Claim C6 amended: for every point cloud whose subsampled selection is
nonempty, if all subsampled points project strictly outside the image
bounds then `get_object_bbox` returns the sentinel `.ok none` (not an
error); and whenever the median camera-frame depth of the subsampled
points is negative, the sentinel is returned as well. -/
theorem get_object_bbox_sentinel :
    (∀ (proj : Pt3 → Pt2) (R : Matrix (Fin 3) (Fin 3) ℝ) (t : Fin 3 → ℝ)
       (H W : ℕ) (pts : List Pt3) (subsample : ℕ) (scale mh mw : ℝ),
       sliceStep subsample pts ≠ [] →
       (∀ q ∈ (sliceStep subsample pts).map proj, ¬ inBounds W H q) →
       get_object_bbox proj R t H W pts subsample scale mh mw = .ok none)
    ∧ (∀ (proj : Pt3 → Pt2) (R : Matrix (Fin 3) (Fin 3) ℝ) (t : Fin 3 → ℝ)
       (H W : ℕ) (pts : List Pt3) (subsample : ℕ) (scale mh mw : ℝ) (d : ℝ),
       npMedian (((sliceStep subsample pts).map (xformPt R t)).map fun p => p.2.2)
           = some d →
       d < 0 →
       get_object_bbox proj R t H W pts subsample scale mh mw = .ok none) := by
  constructor
  · intro proj R t H W pts subsample scale mh mw hne hout
    obtain ⟨a, l, hsub⟩ : ∃ a l, sliceStep subsample pts = a :: l := by
      cases hcase : sliceStep subsample pts with
      | nil => exact absurd hcase hne
      | cons a l => exact ⟨a, l, rfl⟩
    rw [hsub] at hout
    simp only [List.map_cons] at hout
    have hvalid : filterValid (W : ℝ) (H : ℝ) (proj a :: l.map proj) = [] :=
      filterValid_eq_nil hout
    unfold get_object_bbox
    rw [hsub]
    simp only [List.map_cons, npMin, npMax]
    rw [if_neg]
    intro hcond
    have hmed := hcond.1
    rw [hvalid] at hmed
    simp only [List.map_nil, npMedian_nil] at hmed
  · intro proj R t H W pts subsample scale mh mw d hmed hd
    obtain ⟨a, l, hsub⟩ : ∃ a l, sliceStep subsample pts = a :: l := by
      cases hcase : sliceStep subsample pts with
      | nil =>
        rw [hcase] at hmed
        simp [npMedian] at hmed
      | cons a l => exact ⟨a, l, rfl⟩
    rw [hsub] at hmed
    simp only [List.map_cons] at hmed
    unfold get_object_bbox
    rw [hsub]
    simp only [List.map_cons, npMin, npMax]
    split
    · simp only [hmed]
      rw [if_pos hd]
    · rfl

/-- Witness for the C6 amended theorem: a nonempty cloud projecting outside
a 10×10 image yields the sentinel, and a cloud with negative median
camera-frame depth yields the sentinel. -/
theorem get_object_bbox_sentinel_witness :
    get_object_bbox (fun _ => ((-5 : ℝ), (-5 : ℝ))) 1 0 10 10
        [((0 : ℝ), (0 : ℝ), (1 : ℝ))] 1 1 0 0 = .ok none ∧
    get_object_bbox (fun _ => ((5 : ℝ), (5 : ℝ))) 1 0 10 10
        [((0 : ℝ), (0 : ℝ), (-3 : ℝ))] 1 1 0 0 = .ok none := by
  constructor
  · refine get_object_bbox_sentinel.1 _ 1 0 10 10 _ 1 1 0 0 ?_ ?_
    · simp [sliceStep, sliceAux]
    · intro q hq
      simp [sliceStep, sliceAux] at hq
      subst hq
      norm_num [inBounds]
  · refine get_object_bbox_sentinel.2 _ 1 0 10 10 _ 1 1 0 0 (-3) ?_ (by norm_num)
    have hx : xformPt (1 : Matrix (Fin 3) (Fin 3) ℝ) 0 ((0 : ℝ), (0 : ℝ), (-3 : ℝ))
        = (0, 0, -3) := by
      norm_num [xformPt, Matrix.one_apply]
      exact ⟨by decide, by decide⟩
    simp [sliceStep, sliceAux, hx, npMedian_singleton]

theorem box_core {mn mx q : ℝ} {Wn : ℕ} (hmn : mn ≤ q) (hmx : q ≤ mx)
    (h0 : 0 ≤ q) (hW : q < (Wn : ℝ)) :
    0 ≤ pyInt (max 0 mn) ∧
    pyInt (max 0 mn) ≤ pyInt (min ((Wn : ℝ) - 1) mx) ∧
    pyInt (min ((Wn : ℝ) - 1) mx) ≤ (Wn : ℤ) - 1 := by
  have hWn : (1 : ℝ) ≤ (Wn : ℝ) := by
    have hp : (0 : ℝ) < (Wn : ℝ) := lt_of_le_of_lt h0 hW
    have hp' : 0 < Wn := by exact_mod_cast hp
    exact_mod_cast hp'
  have hA0 : (0 : ℝ) ≤ max 0 mn := le_max_left _ _
  have hB0 : (0 : ℝ) ≤ min ((Wn : ℝ) - 1) mx :=
    le_min (by linarith) (le_trans h0 hmx)
  refine ⟨pyInt_nonneg hA0, ?_, ?_⟩
  · rw [pyInt_of_nonneg hA0, pyInt_of_nonneg hB0]
    have h1 : ⌊max 0 mn⌋ ≤ ⌊q⌋ := Int.floor_mono (max_le h0 hmn)
    have h2 : ⌊q⌋ ≤ ⌊min ((Wn : ℝ) - 1) mx⌋ := by
      have hqlt : ⌊q⌋ < (Wn : ℤ) := Int.floor_lt.mpr (by exact_mod_cast hW)
      rcases le_total ((Wn : ℝ) - 1) mx with hc | hc
      · rw [min_eq_left hc]
        have hcast : ((Wn : ℝ) - 1) = (((Wn : ℤ) - 1 : ℤ) : ℝ) := by push_cast; ring
        rw [hcast, Int.floor_intCast]
        omega
      · rw [min_eq_right hc]
        exact Int.floor_mono hmx
    exact le_trans h1 h2
  · rw [pyInt_of_nonneg hB0]
    have hle : min ((Wn : ℝ) - 1) mx ≤ (((Wn : ℤ) - 1 : ℤ) : ℝ) := by
      push_cast
      exact min_le_left _ _
    have hfl := Int.floor_mono hle
    rw [Int.floor_intCast] at hfl
    exact hfl

theorem rescale_side {scale : ℝ} {Wn : ℕ} {x0 x1 : ℤ} (hs : 0 ≤ scale)
    (h0 : 0 ≤ x0) (h01 : x0 ≤ x1) (h1 : x1 ≤ (Wn : ℤ) - 1) :
    0 ≤ pyInt (max 0 ((x0 : ℝ) - (scale - 1) * ((x1 : ℝ) - (x0 : ℝ)) / 2)) ∧
    pyInt (max 0 ((x0 : ℝ) - (scale - 1) * ((x1 : ℝ) - (x0 : ℝ)) / 2)) ≤
      pyInt (min ((x1 : ℝ) + (scale - 1) * ((x1 : ℝ) - (x0 : ℝ)) / 2) ((Wn : ℝ) - 1)) ∧
    pyInt (min ((x1 : ℝ) + (scale - 1) * ((x1 : ℝ) - (x0 : ℝ)) / 2) ((Wn : ℝ) - 1))
      ≤ (Wn : ℤ) - 1 := by
  have ha0 : (0 : ℝ) ≤ (x0 : ℝ) := by exact_mod_cast h0
  have hab : (x0 : ℝ) ≤ (x1 : ℝ) := by exact_mod_cast h01
  have hbW : (x1 : ℝ) ≤ (Wn : ℝ) - 1 := by
    have hc : ((x1 : ℤ) : ℝ) ≤ (((Wn : ℤ) - 1 : ℤ) : ℝ) := by exact_mod_cast h1
    push_cast at hc
    linarith
  have hprod : 0 ≤ scale * ((x1 : ℝ) - (x0 : ℝ)) :=
    mul_nonneg hs (by linarith)
  have hlohi : (x0 : ℝ) - (scale - 1) * ((x1 : ℝ) - (x0 : ℝ)) / 2 ≤
      (x1 : ℝ) + (scale - 1) * ((x1 : ℝ) - (x0 : ℝ)) / 2 := by nlinarith
  have hhi0 : (0 : ℝ) ≤ (x1 : ℝ) + (scale - 1) * ((x1 : ℝ) - (x0 : ℝ)) / 2 := by
    nlinarith
  have hloW : (x0 : ℝ) - (scale - 1) * ((x1 : ℝ) - (x0 : ℝ)) / 2 ≤ (Wn : ℝ) - 1 := by
    nlinarith
  have hA0 : (0 : ℝ) ≤ max 0 ((x0 : ℝ) - (scale - 1) * ((x1 : ℝ) - (x0 : ℝ)) / 2) :=
    le_max_left _ _
  have hB0 : (0 : ℝ) ≤
      min ((x1 : ℝ) + (scale - 1) * ((x1 : ℝ) - (x0 : ℝ)) / 2) ((Wn : ℝ) - 1) :=
    le_min hhi0 (by linarith)
  refine ⟨pyInt_nonneg hA0, ?_, ?_⟩
  · exact pyInt_mono (max_le hB0 (le_min hlohi hloW))
  · rw [pyInt_of_nonneg hB0]
    have hle : min ((x1 : ℝ) + (scale - 1) * ((x1 : ℝ) - (x0 : ℝ)) / 2) ((Wn : ℝ) - 1)
        ≤ (((Wn : ℤ) - 1 : ℤ) : ℝ) := by
      push_cast
      exact min_le_right _ _
    have hfl := Int.floor_mono hle
    rw [Int.floor_intCast] at hfl
    exact hfl

theorem rescaleBox_bounds {scale : ℝ} {W H : ℕ} {x0 x1 y0 y1 : ℤ}
    (hs : 0 ≤ scale) (hx0 : 0 ≤ x0) (hx01 : x0 ≤ x1) (hx1 : x1 ≤ (W : ℤ) - 1)
    (hy0 : 0 ≤ y0) (hy01 : y0 ≤ y1) (hy1 : y1 ≤ (H : ℤ) - 1) :
    0 ≤ (rescaleBox scale W H x0 x1 y0 y1).left ∧
    (rescaleBox scale W H x0 x1 y0 y1).left ≤ (rescaleBox scale W H x0 x1 y0 y1).right ∧
    (rescaleBox scale W H x0 x1 y0 y1).right ≤ (W : ℤ) - 1 ∧
    0 ≤ (rescaleBox scale W H x0 x1 y0 y1).top ∧
    (rescaleBox scale W H x0 x1 y0 y1).top ≤ (rescaleBox scale W H x0 x1 y0 y1).bottom ∧
    (rescaleBox scale W H x0 x1 y0 y1).bottom ≤ (H : ℤ) - 1 := by
  unfold rescaleBox
  split
  · obtain ⟨hx, hxy, hxW⟩ := @rescale_side scale W x0 x1 hs hx0 hx01 hx1
    obtain ⟨hy, hyy, hyH⟩ := @rescale_side scale H y0 y1 hs hy0 hy01 hy1
    exact ⟨hx, hxy, hxW, hy, hyy, hyH⟩
  · exact ⟨hx0, hx01, hx1, hy0, hy01, hy1⟩

/-- Claim C10: whenever `get_object_bbox` returns a non-None result (for any
projection behavior, camera pose, image shape `(H, W)`, subsampling,
nonnegative `scale` and nonnegative minimum box dimensions), the returned
box lies within the image bounds: `0 ≤ left ≤ right ≤ W-1` and
`0 ≤ top ≤ bottom ≤ H-1`, in both the `scale = 1` and `scale ≠ 1` paths. -/
theorem get_object_bbox_box_in_bounds :
    ∀ (proj : Pt3 → Pt2) (R : Matrix (Fin 3) (Fin 3) ℝ) (t : Fin 3 → ℝ)
      (H W : ℕ) (pts : List Pt3) (subsample : ℕ) (scale mh mw : ℝ)
      (pd : List (ℤ × ℤ)) (box : BBox) (depth : ℝ),
      0 ≤ scale → 0 ≤ mh → 0 ≤ mw →
      get_object_bbox proj R t H W pts subsample scale mh mw
          = .ok (some (pd, box, depth)) →
      0 ≤ box.left ∧ box.left ≤ box.right ∧ box.right ≤ (W : ℤ) - 1 ∧
      0 ≤ box.top ∧ box.top ≤ box.bottom ∧ box.bottom ≤ (H : ℤ) - 1 := by
  intro proj R t H W pts subsample scale mh mw pd box depth hs hmh hmw h
  unfold get_object_bbox at h
  dsimp only at h
  split at h
  · rename_i mnx mxx mny mxy heq1 heq2 heq3 heq4
    split at h
    · rename_i hc
      split at h
      · simp at h
      · rename_i dep hdep
        split at h
        · simp at h
        · rename_i hdep_nonneg
          simp only [Except.ok.injEq, Option.some.injEq, Prod.mk.injEq] at h
          obtain ⟨-, hbox, -⟩ := h
          subst hbox
          have hval_ne :
              filterValid (W : ℝ) (H : ℝ)
                ((sliceStep subsample pts).map proj) ≠ [] := by
            intro hnil
            have hm := hc.1
            rw [hnil] at hm
            simp only [List.map_nil, npMedian_nil] at hm
          rcases hv : filterValid (W : ℝ) (H : ℝ)
              ((sliceStep subsample pts).map proj) with _ | ⟨q, rest⟩
          · exact absurd hv hval_ne
          · have hqmem : q ∈ filterValid (W : ℝ) (H : ℝ)
                ((sliceStep subsample pts).map proj) := by
              rw [hv]
              exact List.mem_cons_self _ _
            obtain ⟨hqb, hqpts⟩ := filterValid_mem hqmem
            obtain ⟨hq1, hq2, hq3, hq4⟩ := hqb
            have hmnx : mnx ≤ q.1 := npMin_le heq1 (List.mem_map_of_mem Prod.fst hqpts)
            have hmxx : q.1 ≤ mxx := le_npMax heq2 (List.mem_map_of_mem Prod.fst hqpts)
            have hmny : mny ≤ q.2 := npMin_le heq3 (List.mem_map_of_mem Prod.snd hqpts)
            have hmxy : q.2 ≤ mxy := le_npMax heq4 (List.mem_map_of_mem Prod.snd hqpts)
            obtain ⟨hbx0, hbx01, hbx1⟩ := box_core hmnx hmxx hq1 hq2
            obtain ⟨hby0, hby01, hby1⟩ := box_core hmny hmxy hq3 hq4
            exact rescaleBox_bounds hs hbx0 hbx01 hbx1 hby0 hby01 hby1
    · simp at h
  all_goals simp at h

/-- Witness for the C10 theorem: a single point projecting to `(5,5)` in a
10×10 image yields the box `(5, 5, 5, 5)` with median depth 1, and the box
is within bounds. -/
theorem get_object_bbox_box_in_bounds_witness :
    get_object_bbox (fun _ => ((5 : ℝ), (5 : ℝ))) 1 0 10 10
        [((0 : ℝ), (0 : ℝ), (1 : ℝ))] 1 1 0 0
      = .ok (some ([((5 : ℤ), (5 : ℤ))], BBox.mk 5 5 5 5, 1)) ∧
    (0 ≤ (BBox.mk 5 5 5 5).left ∧
     (BBox.mk 5 5 5 5).left ≤ (BBox.mk 5 5 5 5).right ∧
     (BBox.mk 5 5 5 5).right ≤ ((10 : ℕ) : ℤ) - 1 ∧
     0 ≤ (BBox.mk 5 5 5 5).top ∧
     (BBox.mk 5 5 5 5).top ≤ (BBox.mk 5 5 5 5).bottom ∧
     (BBox.mk 5 5 5 5).bottom ≤ ((10 : ℕ) : ℤ) - 1) := by
  have hx : xformPt (1 : Matrix (Fin 3) (Fin 3) ℝ) 0 ((0 : ℝ), (0 : ℝ), (1 : ℝ))
      = (0, 0, 1) := by
    norm_num [xformPt, Matrix.one_apply]
    exact ⟨by decide, by decide⟩
  have heval : get_object_bbox (fun _ => ((5 : ℝ), (5 : ℝ))) 1 0 10 10
      [((0 : ℝ), (0 : ℝ), (1 : ℝ))] 1 1 0 0
      = .ok (some ([((5 : ℤ), (5 : ℤ))], BBox.mk 5 5 5 5, 1)) := by
    unfold get_object_bbox
    norm_num [sliceStep, sliceAux, npMin, npMax, npMedian, sortList,
      insertSorted, filterValid, inBounds, hx, rescaleBox, pyInt]
  exact ⟨heval,
    get_object_bbox_box_in_bounds _ 1 0 10 10 _ 1 1 0 0 _ _ _
      (by norm_num) (le_refl 0) (le_refl 0) heval⟩

end CamUtils
